import Mathlib

/-!
Shallow embedding of the MNIST classification notebook
(`classification_handwritten_numbers/tf_classification_mnist`) and proofs of
its specification's claims.

The notebook's own logic is: load the MNIST train/test splits, normalize and
batch them through a tf.data pipeline, assemble a small convolutional
classifier, train it with an early-stopping callback, and run inference on one
external grayscale image.  Images are embedded as flat row-major lists of
pixel values (raw 8-bit intensities as naturals, normalized intensities as
rationals); the tf.data pipeline stages become functions on lists; the Keras
layers become explicit arithmetic over rationals; the early-stopping callback
becomes an explicit state machine driven by the per-epoch validation losses.
-/

/-- A raw MNIST sample as delivered by `tfds.load('mnist', as_supervised=True)`:
the 28x28 single-channel image as a flat row-major list of 8-bit intensities,
and the integer label. -/
def RawSample : Type := List ℕ × ℕ

/-- A normalized sample: pixel intensities as rationals (embedding the float32
values), and the integer label. -/
def Sample : Type := List ℚ × ℕ

/-- Source: `normalize_img(image, label)` — "Normalizes images: uint8 ->
float32": `return tf.cast(image, tf.float32) / 255., label`. -/
def normalize_img (s : RawSample) : Sample :=
  (s.1.map fun p : ℕ => (p : ℚ) / 255, s.2)

/-- Source: `.cache()` — memoizes the dataset in memory when iterating; the
contents and their order are unchanged. -/
def cacheDs {α : Type} (xs : List α) : List α := xs

/-- Source: `.prefetch(tf.data.experimental.AUTOTUNE)` — prepares upcoming
elements while the current one is consumed; a pipelining overlap only, the
contents and their order are unchanged. -/
def prefetchDs {α : Type} (xs : List α) : List α := xs

/-- Source: `.batch(128)` (with general batch size `n`) — groups consecutive
elements into fixed-size batches; the final batch may be partial. -/
def batchList {α : Type} (n : ℕ) : List α → List (List α)
  | [] => []
  | x :: xs => ((x :: xs).take n) :: batchList n (xs.drop (n - 1))
termination_by l => l.length
decreasing_by simp [List.length_drop]; omega

theorem batchList_nil {α : Type} (n : ℕ) : batchList n ([] : List α) = [] := by
  rw [batchList]

theorem batchList_cons {α : Type} (n : ℕ) (x : α) (xs : List α) :
    batchList n (x :: xs) = ((x :: xs).take n) :: batchList n (xs.drop (n - 1)) := by
  rw [batchList]

/-- Concatenating the batches of a split, in order, recovers the split. -/
theorem batchList_flatten {α : Type} (n : ℕ) (hn : 1 ≤ n) :
    ∀ xs : List α, (batchList n xs).flatten = xs := by
  have main : ∀ k : ℕ, ∀ xs : List α, xs.length ≤ k → (batchList n xs).flatten = xs := by
    intro k
    induction k with
    | zero =>
      intro xs h
      have hx : xs = [] := by
        cases xs with
        | nil => rfl
        | cons a l => simp at h
      subst hx
      simp [batchList_nil]
    | succ k ih =>
      intro xs h
      cases xs with
      | nil => simp [batchList_nil]
      | cons x l =>
        rw [batchList_cons]
        have hlen : (l.drop (n - 1)).length ≤ k := by
          simp only [List.length_drop]
          simp at h
          omega
        rw [List.flatten_cons, ih _ hlen]
        obtain ⟨m, rfl⟩ : ∃ m, n = m + 1 := ⟨n - 1, by omega⟩
        simp [List.take_succ_cons, List.take_append_drop]
  intro xs
  exact main xs.length xs le_rfl

/-- A nonempty list produces at least one batch. -/
theorem batchList_ne_nil {α : Type} (n : ℕ) (x : α) (xs : List α) :
    batchList n (x :: xs) ≠ [] := by
  rw [batchList_cons]
  simp

/-- Every batch except possibly the last holds exactly `n` elements. -/
theorem batchList_dropLast_length {α : Type} (n : ℕ) (hn : 1 ≤ n) :
    ∀ xs : List α, ∀ b ∈ (batchList n xs).dropLast, b.length = n := by
  have main : ∀ k : ℕ, ∀ xs : List α, xs.length ≤ k →
      ∀ b ∈ (batchList n xs).dropLast, b.length = n := by
    intro k
    induction k with
    | zero =>
      intro xs h b hb
      have hx : xs = [] := by
        cases xs with
        | nil => rfl
        | cons a l => simp at h
      subst hx
      simp [batchList_nil] at hb
    | succ k ih =>
      intro xs h b hb
      cases xs with
      | nil => simp [batchList_nil] at hb
      | cons x l =>
        rw [batchList_cons] at hb
        by_cases hrest : batchList n (l.drop (n - 1)) = []
        · rw [hrest] at hb
          simp at hb
        · rw [List.dropLast_cons_of_ne_nil hrest] at hb
          rcases List.mem_cons.mp hb with hbt | hbr
          · subst hbt
            have hdrop : l.drop (n - 1) ≠ [] := by
              intro hc
              exact hrest (by rw [hc, batchList_nil])
            have : n - 1 < l.length := by
              by_contra hcon
              push_neg at hcon
              exact hdrop (List.drop_eq_nil_of_le hcon)
            simp only [List.length_take, List.length_cons]
            omega
          · exact ih (l.drop (n - 1)) (by simp only [List.length_drop]; simp at h; omega) b hbr
  intro xs
  exact main xs.length xs le_rfl

/-- Every batch is nonempty and holds at most `n` elements. -/
theorem batchList_mem_length {α : Type} (n : ℕ) (hn : 1 ≤ n) :
    ∀ xs : List α, ∀ b ∈ batchList n xs, 0 < b.length ∧ b.length ≤ n := by
  have main : ∀ k : ℕ, ∀ xs : List α, xs.length ≤ k →
      ∀ b ∈ batchList n xs, 0 < b.length ∧ b.length ≤ n := by
    intro k
    induction k with
    | zero =>
      intro xs h b hb
      have hx : xs = [] := by
        cases xs with
        | nil => rfl
        | cons a l => simp at h
      subst hx
      simp [batchList_nil] at hb
    | succ k ih =>
      intro xs h b hb
      cases xs with
      | nil => simp [batchList_nil] at hb
      | cons x l =>
        rw [batchList_cons] at hb
        rcases List.mem_cons.mp hb with hbt | hbr
        · subst hbt
          constructor
          · simp only [List.length_take, List.length_cons]
            omega
          · simp only [List.length_take]
            omega
        · exact ih (l.drop (n - 1)) (by simp only [List.length_drop]; simp at h; omega) b hbr
  intro xs
  exact main xs.length xs le_rfl

/-- Source: `.shuffle(buffer_size)` — tf.data's buffered shuffle.  A buffer is
filled with the first `buffer_size` elements; at each step one buffered element
is drawn (the draw outcomes are passed in explicitly as the list `ks`, each
entry selecting a position modulo the current buffer size) and the buffer is
refilled from the remaining stream.  When the draw stream is exhausted the
remaining elements are emitted unchanged. -/
def shuffleAux {α : Type} : List ℕ → List α → List α → List α
  | [], buf, rest => buf ++ rest
  | k :: ks, buf, rest =>
    match buf with
    | [] => rest
    | b0 :: bs =>
      let i := k % (b0 :: bs).length
      let x := (b0 :: bs).getD i b0
      let buf2 := (b0 :: bs).eraseIdx i
      match rest with
      | [] => x :: shuffleAux ks buf2 []
      | r :: rs => x :: shuffleAux ks (buf2 ++ [r]) rs

/-- Source: `ds_train.shuffle(ds_info.splits['train'].num_examples)` — shuffle
with an explicit buffer size. -/
def shuffleDs {α : Type} (buffer : ℕ) (ks : List ℕ) (xs : List α) : List α :=
  shuffleAux ks (xs.take buffer) (xs.drop buffer)

theorem getD_cons_eraseIdx_perm {α : Type} (d : α) :
    ∀ (l : List α) (i : ℕ), i < l.length → List.Perm (l.getD i d :: l.eraseIdx i) l := by
  intro l
  induction l with
  | nil => intro i hi; simp at hi
  | cons a t ih =>
    intro i hi
    cases i with
    | zero => simp
    | succ j =>
      have hj : j < t.length := by simp at hi; omega
      have h1 : List.Perm (t.getD j d :: a :: t.eraseIdx j) (a :: (t.getD j d :: t.eraseIdx j)) :=
        List.Perm.swap a (t.getD j d) (t.eraseIdx j)
      have h2 : List.Perm (a :: (t.getD j d :: t.eraseIdx j)) (a :: t) :=
        List.Perm.cons a (ih j hj)
      simpa [List.getD, List.eraseIdx] using h1.trans h2

/-- The buffered shuffle emits a permutation of buffer plus stream. -/
theorem shuffleAux_perm {α : Type} :
    ∀ (ks : List ℕ) (buf rest : List α), List.Perm (shuffleAux ks buf rest) (buf ++ rest) := by
  intro ks
  induction ks with
  | nil => intro buf rest; simp [shuffleAux]
  | cons k ks ih =>
    intro buf rest
    cases buf with
    | nil => simp [shuffleAux]
    | cons b0 bs =>
      have hi : k % (b0 :: bs).length < (b0 :: bs).length :=
        Nat.mod_lt _ (by simp)
      have hperm : List.Perm
          ((b0 :: bs).getD (k % (b0 :: bs).length) b0 ::
            (b0 :: bs).eraseIdx (k % (b0 :: bs).length)) (b0 :: bs) :=
        getD_cons_eraseIdx_perm b0 (b0 :: bs) _ hi
      cases rest with
      | nil =>
        show List.Perm (_ :: shuffleAux ks _ []) _
        have h1 := List.Perm.cons ((b0 :: bs).getD (k % (b0 :: bs).length) b0)
          (ih ((b0 :: bs).eraseIdx (k % (b0 :: bs).length)) [])
        simp only [List.append_nil] at h1 ⊢
        exact h1.trans hperm
      | cons r rs =>
        show List.Perm (_ :: shuffleAux ks _ rs) _
        have h1 := List.Perm.cons ((b0 :: bs).getD (k % (b0 :: bs).length) b0)
          (ih ((b0 :: bs).eraseIdx (k % (b0 :: bs).length) ++ [r]) rs)
        have h2 : List.Perm
            ((b0 :: bs).getD (k % (b0 :: bs).length) b0 ::
              ((b0 :: bs).eraseIdx (k % (b0 :: bs).length) ++ [r] ++ rs))
            ((b0 :: bs) ++ r :: rs) := by
          have h3 : (b0 :: bs).eraseIdx (k % (b0 :: bs).length) ++ [r] ++ rs =
              (b0 :: bs).eraseIdx (k % (b0 :: bs).length) ++ (r :: rs) := by
            simp
          rw [h3, ← List.cons_append]
          exact List.Perm.append_right (r :: rs) hperm
        exact h1.trans h2

/-- Shuffling emits a permutation of its input. -/
theorem shuffleDs_perm {α : Type} (buffer : ℕ) (ks : List ℕ) (xs : List α) :
    List.Perm (shuffleDs buffer ks xs) xs := by
  have h := shuffleAux_perm ks (xs.take buffer) (xs.drop buffer)
  simpa [shuffleDs, List.take_append_drop] using h

/-- Source lines 101-113: the train-split tf.data pipeline, in source order —
`map(normalize_img)`, `.cache()`, `.shuffle(num_examples)`, `.batch(128)`,
`.prefetch(AUTOTUNE)`.  The split metadata count `num_examples` equals the
split's length; the shuffle draw outcomes `ks` stand for the RNG. -/
def ds_train_pipeline (raw : List RawSample) (ks : List ℕ) : List (List Sample) :=
  let d := raw.map normalize_img
  let d := cacheDs d
  let d := shuffleDs raw.length ks d
  let d := batchList 128 d
  prefetchDs d

/-- Source lines 122-125: the test-split tf.data pipeline, in source order —
`map(normalize_img)`, `.cache()`, `.batch(128)`, `.prefetch(AUTOTUNE)`;
no shuffle step. -/
def ds_test_pipeline (raw : List RawSample) : List (List Sample) :=
  let d := raw.map normalize_img
  let d := cacheDs d
  let d := batchList 128 d
  prefetchDs d

/-- The pipeline operations tf.data supports in this notebook. -/
inductive PipeOp where
  | map_normalize : PipeOp
  | cache : PipeOp
  | shuffle (buffer : ℕ) : PipeOp
  | batch (size : ℕ) : PipeOp
  | prefetch : PipeOp
deriving DecidableEq, BEq

/-- The op sequence the source applies to the train split, in source order
(lines 101-113). -/
def trainPipeOps (numExamples : ℕ) : List PipeOp :=
  [PipeOp.map_normalize, PipeOp.cache, PipeOp.shuffle numExamples,
   PipeOp.batch 128, PipeOp.prefetch]

/-- The op sequence the source applies to the test split, in source order
(lines 122-125). -/
def testPipeOps : List PipeOp :=
  [PipeOp.map_normalize, PipeOp.cache, PipeOp.batch 128, PipeOp.prefetch]

/-- ReLU activation: `activation='relu'`. -/
def relu (x : ℚ) : ℚ := max x 0

/-- Pixel read with zero padding, for the convolution's `padding='same'`:
indices outside the 28x28 grid read as zero.  The image is a flat row-major
list of 28*28 pixels. -/
def pixAt (ps : List ℚ) (r c : ℤ) : ℚ :=
  if 0 ≤ r ∧ r < 28 ∧ 0 ≤ c ∧ c < 28 then ps.getD (28 * r.toNat + c.toNat) 0 else 0

/-- Source: `layers.Conv2D(kernel_size=4, filters=3, input_shape=(28, 28, 1),
activation='relu', padding='same')`.  Stride 1, `same` zero padding for a
4-wide kernel pads one row/column before and two after, so output position
`(i, j)` reads input rows `i-1..i+2` and columns `j-1..j+2`.  The output is
produced directly in the row-major `(i, j, channel)` order that the following
`layers.Flatten` emits: flat index `(i * 28 + j) * 3 + c`. -/
def convSame (kernel : ℕ → ℕ → ℕ → ℚ) (bias : ℕ → ℚ) (ps : List ℚ) : List ℚ :=
  (List.range (28 * 28 * 3)).map fun idx =>
    relu (bias (idx % 3) +
      ∑ di ∈ Finset.range 4, ∑ dj ∈ Finset.range 4,
        kernel di dj (idx % 3) *
          pixAt ps (((idx / 84 : ℕ) : ℤ) + (di : ℤ) - 1) (((idx / 3 % 28 : ℕ) : ℤ) + (dj : ℤ) - 1))

/-- Source: `layers.Dense(units, activation)` — a fully connected layer:
each of the `nOut` output units is the activation applied to its bias plus the
weighted sum of the `nIn` inputs. -/
def denseLayer (nIn nOut : ℕ) (weight : ℕ → ℕ → ℚ) (bias : ℕ → ℚ)
    (act : ℚ → ℚ) (xs : List ℚ) : List ℚ :=
  (List.range nOut).map fun o => act (bias o + ∑ i ∈ Finset.range nIn, weight i o * xs.getD i 0)

/-- The trainable parameters of the notebook's model: the convolution kernel
(height, width, output channel) and bias, and weights/biases of the two dense
layers. -/
structure ModelWeights where
  convKernel : ℕ → ℕ → ℕ → ℚ
  convBias : ℕ → ℚ
  w1 : ℕ → ℕ → ℚ
  b1 : ℕ → ℚ
  w2 : ℕ → ℕ → ℚ
  b2 : ℕ → ℚ

/-- Source: `tf.keras.models.Sequential([...])` — the forward pass:
Conv2D (4x4 kernel, 3 filters, same padding, ReLU) on the 28x28x1 input,
Flatten (the convolution output is already produced flattened, 28*28*3 = 2352
values), Dense(64, relu), Dense(10) with no activation — raw logits. -/
def forward (w : ModelWeights) (ps : List ℚ) : List ℚ :=
  let conv := convSame w.convKernel w.convBias ps
  let hidden := denseLayer 2352 64 w.w1 w.b1 relu conv
  denseLayer 64 10 w.w2 w.b2 id hidden

/-- A layer configuration record, mirroring the keyword arguments given in the
source's `Sequential` list. -/
inductive LayerCfg where
  | conv2d (kernel_size filters : ℕ) (activation padding : String)
      (input_height input_width input_channels : ℕ) : LayerCfg
  | flattenStage (input_height input_width input_channels : ℕ) : LayerCfg
  | denseStage (units : ℕ) (activation : Option String) : LayerCfg
deriving DecidableEq

/-- Source lines 149-154: the `Sequential` layer list —
`Conv2D(kernel_size=4, filters=3, input_shape=(28, 28, 1), activation='relu',
padding='same')`, `Flatten(input_shape=(28, 28, 1))`,
`Dense(64, activation='relu')`, `Dense(10)`. -/
def modelLayers : List LayerCfg :=
  [LayerCfg.conv2d 4 3 "relu" "same" 28 28 1,
   LayerCfg.flattenStage 28 28 1,
   LayerCfg.denseStage 64 (some "relu"),
   LayerCfg.denseStage 10 none]

/-- Source: `np.argmax` — the index of the first maximal element (0 on the
empty list).  The accumulator carries the next index, the best index so far
and the best value so far; a later element replaces the best only when it is
strictly greater. -/
def argmaxAux : List ℚ → ℕ → ℕ → ℚ → ℕ
  | [], _, bi, _ => bi
  | x :: xs, i, bi, bv => if bv < x then argmaxAux xs (i + 1) i x else argmaxAux xs (i + 1) bi bv

/-- Source: `np.argmax(v)` for a vector `v`. -/
def np_argmax : List ℚ → ℕ
  | [] => 0
  | x :: xs => argmaxAux xs 1 0 x

theorem argmaxAux_lt (xs : List ℚ) : ∀ (i bi : ℕ) (bv : ℚ), bi < i →
    argmaxAux xs i bi bv < i + xs.length := by
  induction xs with
  | nil => intro i bi bv h; simpa [argmaxAux] using h
  | cons x t ih =>
    intro i bi bv h
    rw [argmaxAux]
    by_cases hc : bv < x
    · rw [if_pos hc]
      have := ih (i + 1) i x (by omega)
      simpa [Nat.add_comm, Nat.add_left_comm] using this
    · rw [if_neg hc]
      have := ih (i + 1) bi bv (by omega)
      simpa [Nat.add_comm, Nat.add_left_comm] using this

/-- The argmax of a nonempty vector is a valid index. -/
theorem np_argmax_lt_length (x : ℚ) (xs : List ℚ) :
    np_argmax (x :: xs) < (x :: xs).length := by
  have := argmaxAux_lt xs 1 0 x (by omega)
  simp only [np_argmax, List.length_cons]
  omega

/-- Optimizer configuration record. -/
structure OptimizerCfg where
  name : String
  learning_rate : ℚ
deriving DecidableEq

/-- Loss configuration record. -/
structure LossCfg where
  name : String
  from_logits : Bool
deriving DecidableEq

/-- Compilation configuration record. -/
structure CompileCfg where
  optimizer : OptimizerCfg
  loss : LossCfg
  metrics : List String
deriving DecidableEq

/-- Source lines 156-170: `model.compile(optimizer=tf.keras.optimizers.Adam(0.001),
loss=tf.keras.losses.SparseCategoricalCrossentropy(from_logits=True),
metrics=[tf.keras.metrics.SparseCategoricalAccuracy()])`. -/
def modelCompile : CompileCfg :=
  { optimizer := { name := "Adam", learning_rate := 1 / 1000 },
    loss := { name := "SparseCategoricalCrossentropy", from_logits := true },
    metrics := ["SparseCategoricalAccuracy"] }

/-- Source: `tf.keras.metrics.SparseCategoricalAccuracy()` — a prediction
counts as correct exactly when the argmax of the logits equals the integer
label. -/
def sparseCategoricalAccuracy (logits : List ℚ) (label : ℕ) : Bool :=
  np_argmax logits == label

/-- Source: `min_delta=0.001` in `tf.keras.callbacks.EarlyStopping`. -/
def es_min_delta : ℚ := 1 / 1000

/-- Source: `patience=5` in `tf.keras.callbacks.EarlyStopping`. -/
def es_patience : ℕ := 5

/-- The callback state of `tf.keras.callbacks.EarlyStopping`: the best
monitored value seen so far (`None` until the first epoch ends, embedding the
infinite initial best), the epoch whose weights are checkpointed by
`restore_best_weights=True`, and the count of consecutive epochs without
improvement. -/
structure EarlyStopState where
  best : Option ℚ
  bestEpoch : ℕ
  wait : ℕ
deriving DecidableEq

/-- One `on_epoch_end` step of the callback, monitoring `val_loss`: an epoch
improves when its loss is below the best by more than `min_delta`; an
improvement records the new best and checkpoints the weights, otherwise the
wait counter grows and reaching `patience` stops training.  Returns the new
state and whether training stops. -/
def earlyStopUpdate (s : EarlyStopState) (epoch : ℕ) (current : ℚ) :
    EarlyStopState × Bool :=
  match s.best with
  | none => (⟨some current, epoch, 0⟩, false)
  | some b =>
    if current < b - es_min_delta then (⟨some current, epoch, 0⟩, false)
    else
      (⟨some b, s.bestEpoch, s.wait + 1⟩, decide (es_patience ≤ s.wait + 1))

/-- Source: the epoch loop of `model.fit(..., callbacks=[early_stopping])`.
`valLoss e` is the validation loss the run would measure after training epoch
`e` (the evaluation of `ds_test` with the weights held at the end of that
epoch); `fuel` is the number of epochs still allowed, `e` the next epoch
index.  Returns the number of epochs run, the final callback state, and
whether early stopping fired. -/
def fitLoop (valLoss : ℕ → ℚ) : ℕ → ℕ → EarlyStopState → ℕ × EarlyStopState × Bool
  | 0, e, s => (e, s, false)
  | fuel + 1, e, s =>
    match earlyStopUpdate s e (valLoss e) with
    | (s2, true) => (e + 1, s2, true)
    | (s2, false) => fitLoop valLoss fuel (e + 1) s2

/-- Source: `model.fit(ds_train, epochs=100, validation_data=ds_test,
callbacks=[early_stopping])`. -/
def trainRun (valLoss : ℕ → ℚ) : ℕ × EarlyStopState × Bool :=
  fitLoop valLoss 100 0 ⟨none, 0, 0⟩

/-- The epoch whose weights the model holds once `fit` returns: when early
stopping fired, `restore_best_weights=True` rolls back to the checkpointed
best epoch; when the epoch cap was reached without firing, the callback
restores nothing and the weights are those of the last epoch run. -/
def retainedEpoch (valLoss : ℕ → ℚ) : ℕ :=
  if (trainRun valLoss).2.2 then (trainRun valLoss).2.1.bestEpoch
  else (trainRun valLoss).1 - 1

/-- The loop invariant of the early-stopping run: before the first epoch the
best is unset at epoch counter zero; afterwards the best is the loss of the
checkpointed epoch, the epoch counter decomposes as checkpoint + 1 + wait,
the wait is below patience, and the best is within `min_delta` of every loss
seen. -/
def EsInv (v : ℕ → ℚ) (e : ℕ) (s : EarlyStopState) : Prop :=
  match s.best with
  | none => e = 0
  | some b => b = v s.bestEpoch ∧ s.bestEpoch < e ∧ e = s.bestEpoch + 1 + s.wait ∧
      s.wait < es_patience ∧ ∀ i < e, b ≤ v i + es_min_delta

theorem esInv_some_iff (v : ℕ → ℚ) (e : ℕ) (b : ℚ) (be w : ℕ) :
    EsInv v e ⟨some b, be, w⟩ ↔
      (b = v be ∧ be < e ∧ e = be + 1 + w ∧ w < es_patience ∧
        ∀ i < e, b ≤ v i + es_min_delta) :=
  Iff.rfl

theorem esInv_none_iff (v : ℕ → ℚ) (e : ℕ) (be w : ℕ) :
    EsInv v e ⟨none, be, w⟩ ↔ e = 0 :=
  Iff.rfl

theorem earlyStopUpdate_none (be w e : ℕ) (c : ℚ) :
    earlyStopUpdate ⟨none, be, w⟩ e c = (⟨some c, e, 0⟩, false) :=
  rfl

theorem earlyStopUpdate_improve (b : ℚ) (be w e : ℕ) (c : ℚ) (h : c < b - es_min_delta) :
    earlyStopUpdate ⟨some b, be, w⟩ e c = (⟨some c, e, 0⟩, false) := by
  simp [earlyStopUpdate, h]

theorem earlyStopUpdate_stale (b : ℚ) (be w e : ℕ) (c : ℚ) (h : ¬ c < b - es_min_delta) :
    earlyStopUpdate ⟨some b, be, w⟩ e c =
      (⟨some b, be, w + 1⟩, decide (es_patience ≤ w + 1)) := by
  simp [earlyStopUpdate, h]

theorem earlyStopUpdate_inv (v : ℕ → ℚ) (e : ℕ) (s : EarlyStopState)
    (hinv : EsInv v e s) :
    (((earlyStopUpdate s e (v e)).2 = false → EsInv v (e + 1) (earlyStopUpdate s e (v e)).1) ∧
     ((earlyStopUpdate s e (v e)).2 = true →
        (earlyStopUpdate s e (v e)).1.best = some (v (earlyStopUpdate s e (v e)).1.bestEpoch) ∧
        e + 1 = (earlyStopUpdate s e (v e)).1.bestEpoch + 1 + es_patience ∧
        ∀ i < e + 1, v (earlyStopUpdate s e (v e)).1.bestEpoch ≤ v i + es_min_delta)) := by
  have hdelta : (0 : ℚ) ≤ es_min_delta := by norm_num [es_min_delta]
  have hpat : 0 < es_patience := by norm_num [es_patience]
  obtain ⟨sb, sbe, sw⟩ := s
  cases sb with
  | none =>
    have he : e = 0 := (esInv_none_iff v e sbe sw).mp hinv
    subst he
    rw [earlyStopUpdate_none]
    constructor
    · intro _
      refine (esInv_some_iff v 1 (v 0) 0 0).mpr ⟨rfl, by omega, by omega, hpat, ?_⟩
      intro i hi
      have hz : i = 0 := by omega
      subst hz
      linarith
    · intro habs
      simp at habs
  | some b =>
    obtain ⟨hbv, hbe, hdec, hwait, hall⟩ := (esInv_some_iff v e b sbe sw).mp hinv
    by_cases himp : v e < b - es_min_delta
    · rw [earlyStopUpdate_improve b sbe sw e (v e) himp]
      constructor
      · intro _
        refine (esInv_some_iff v (e + 1) (v e) e 0).mpr
          ⟨rfl, by omega, by omega, hpat, ?_⟩
        intro i hi
        rcases Nat.lt_succ_iff_lt_or_eq.mp hi with hie | hie
        · have h1 := hall i hie
          linarith
        · subst hie
          linarith
      · intro habs
        simp at habs
    · rw [earlyStopUpdate_stale b sbe sw e (v e) himp]
      constructor
      · intro hnost
        have hw : ¬ es_patience ≤ sw + 1 := by
          intro hcon
          simp [decide_eq_true hcon] at hnost
        refine (esInv_some_iff v (e + 1) b sbe (sw + 1)).mpr
          ⟨hbv, by omega, by omega, by omega, ?_⟩
        intro i hi
        rcases Nat.lt_succ_iff_lt_or_eq.mp hi with hie | hie
        · exact hall i hie
        · subst hie
          linarith
      · intro hstop
        have hw : es_patience ≤ sw + 1 := by
          by_contra hcon
          simp [decide_eq_false hcon] at hstop
        have hweq : sw + 1 = es_patience := by omega
        refine ⟨by rw [hbv], by simp only; omega, ?_⟩
        intro i hi
        simp only
        rw [← hbv]
        rcases Nat.lt_succ_iff_lt_or_eq.mp hi with hie | hie
        · exact hall i hie
        · subst hie
          linarith

theorem fitLoop_spec (v : ℕ → ℚ) :
    ∀ (fuel e : ℕ) (s : EarlyStopState), EsInv v e s →
      (fitLoop v fuel e s).1 ≤ e + fuel ∧
      (e ≤ (fitLoop v fuel e s).1) ∧
      ((fitLoop v fuel e s).2.2 = true →
        (fitLoop v fuel e s).2.1.best = some (v (fitLoop v fuel e s).2.1.bestEpoch) ∧
        (fitLoop v fuel e s).1 = (fitLoop v fuel e s).2.1.bestEpoch + 1 + es_patience ∧
        ∀ i < (fitLoop v fuel e s).1,
          v (fitLoop v fuel e s).2.1.bestEpoch ≤ v i + es_min_delta) := by
  intro fuel
  induction fuel with
  | zero =>
    intro e s hinv
    refine ⟨by simp [fitLoop], by simp [fitLoop], ?_⟩
    intro habs
    simp [fitLoop] at habs
  | succ fuel ih =>
    intro e s hinv
    have hstep := earlyStopUpdate_inv v e s hinv
    rcases hu : earlyStopUpdate s e (v e) with ⟨s2, stop⟩
    rw [hu] at hstep
    cases stop with
    | true =>
      have hfit : fitLoop v (fuel + 1) e s = (e + 1, s2, true) := by
        rw [fitLoop, hu]
      rw [hfit]
      refine ⟨by omega, by omega, ?_⟩
      intro _
      exact hstep.2 rfl
    | false =>
      have hfit : fitLoop v (fuel + 1) e s = fitLoop v fuel (e + 1) s2 := by
        rw [fitLoop, hu]
      rw [hfit]
      have hinv2 : EsInv v (e + 1) s2 := hstep.1 rfl
      have hrec := ih (e + 1) s2 hinv2
      refine ⟨by omega, by omega, hrec.2.2⟩

/-- Source: `np.max(imgarr)` — the maximum pixel intensity of the image. -/
def npMax (ps : List ℕ) : ℕ := ps.foldr max 0

/-- Source: `imgarr = imgarr / np.max(imgarr)` — inference-time normalization
by the image's own maximum pixel value, under float semantics.  For an image
with a nonzero maximum this divides every pixel by that maximum; for an
all-zero image the maximum is 0, `0 / 0` is IEEE NaN, and the resulting array
holds no finite values — embedded as `none`. -/
def normalizeByMax (ps : List ℕ) : Option (List ℚ) :=
  if npMax ps = 0 then none
  else some (ps.map fun p : ℕ => (p : ℚ) / (npMax ps : ℚ))

/-- Source: `model.predict(imgarr)` — Keras predict iterates the input in
sub-batches (default `batch_size=32`) and concatenates the per-row outputs of
the same forward pass. -/
def model_predict (w : ModelWeights) (batch : List (List ℚ)) : List (List ℚ) :=
  (batchList 32 batch).flatMap fun chunk => chunk.map (forward w)

/-- Source: `model(imgarr)` — calling the model applies the layers to every
row of the input batch. -/
def model_call (w : ModelWeights) (batch : List (List ℚ)) : List (List ℚ) :=
  batch.map (forward w)

/-- The notebook's implicit failure conditions (spec section 7). -/
inductive NotebookError where
  | datasetUnavailable : NotebookError
  | imageLoadError : NotebookError
  | shapeMismatch : NotebookError
deriving DecidableEq

/-- Source: the inference cell.  `PIL.Image.open("tf_classification_user.png")
.convert("L")` either yields the grayscale pixels or raises (embedded as the
incoming `Except`); `np.array(img).reshape((1,28,28,1))` raises `ValueError`
unless the pixel count is exactly 28*28 (no resizing happens);
`imgarr / np.max(imgarr)` normalizes by the per-image maximum (NaN array when
the image is all zero — numpy only warns, the cell keeps running);
`print(model.predict(imgarr))` prints the logits and
`np.argmax(model(imgarr))` is reported as the prediction (`np.argmax` of an
all-NaN vector is 0, NaN comparisons being false).  The result is the printed
logit row (`none` when not finite) and the reported digit. -/
def inferenceCell (w : ModelWeights) (imgFile : Except NotebookError (List ℕ)) :
    Except NotebookError (Option (List ℚ) × ℕ) := do
  let img ← imgFile
  if img.length = 28 * 28 then
    match normalizeByMax img with
    | some imgarr =>
      pure ((model_predict w [imgarr]).head?,
            np_argmax ((model_call w [imgarr]).flatten))
    | none => pure (none, 0)
  else throw NotebookError.shapeMismatch

/-- Source: `tfds.load('mnist', split=['train', 'test'], ...)` followed by the
two pipeline cells.  The fetch from network/cache may fail (embedded as the
incoming `Except`); nothing in the notebook catches it. -/
def notebookPipelines (fetch : Except NotebookError (List RawSample × List RawSample))
    (ks : List ℕ) : Except NotebookError (List (List Sample) × List (List Sample)) := do
  let splits ← fetch
  pure (ds_train_pipeline splits.1 ks, ds_test_pipeline splits.2)

/-- A validation-loss trace on which the early-stopping callback rolls back to
weights that are strictly worse than the best loss it observed: epoch 0
measures 1, every later epoch measures 999/1000 — never an improvement by
more than `min_delta`, yet below the checkpointed best. -/
def exValLoss : ℕ → ℚ := fun e => if e = 0 then 1 else 999 / 1000

theorem npMax_cons (a : ℕ) (l : List ℕ) : npMax (a :: l) = max a (npMax l) :=
  rfl

theorem npMax_replicate_succ (n c : ℕ) : npMax (List.replicate (n + 1) c) = c := by
  induction n with
  | zero => simp [List.replicate_succ, npMax_cons, npMax]
  | succ k ih =>
    rw [List.replicate_succ, npMax_cons, ih]
    omega

theorem np_argmax_lt_of_ne_nil (xs : List ℚ) (h : xs ≠ []) : np_argmax xs < xs.length := by
  cases xs with
  | nil => exact absurd rfl h
  | cons x t => exact np_argmax_lt_length x t

/-- The all-zero 28x28 test image of the spec's safety property. -/
def zeroImage : List ℕ := List.replicate (28 * 28) 0

/-- An all-ones 28x28 image (a concrete well-behaved inference input). -/
def onesImage : List ℕ := List.replicate (28 * 28) 1

/-- A concrete all-zero parameter assignment. -/
def zeroWeights : ModelWeights :=
  ⟨fun _ _ _ => 0, fun _ => 0, fun _ _ => 0, fun _ => 0, fun _ _ => 0, fun _ => 0⟩

/-- C1 (amended): in every run training stops after at most 100 epochs; when
the validation loss fails to improve on the running best by more than 0.001
for 5 consecutive epochs the run halts — the epochs run equal the checkpointed
epoch plus 6 — and the Model Parameters are rolled back to the checkpoint of
the last improvement epoch, whose validation loss exceeds no observed
validation loss by more than 0.001.  (As stated the claim is false: the
checkpoint is the last epoch that improved the running best by more than
`min_delta`, which can be strictly worse than the best observed loss — see
the counterexample — so "never worse than the best observed" only holds up to
the 0.001 tolerance, and only when early stopping fires.) -/
theorem claim_c1_early_stopping (v : ℕ → ℚ) :
    (trainRun v).1 ≤ 100 ∧
    ((trainRun v).2.2 = true →
      retainedEpoch v = (trainRun v).2.1.bestEpoch ∧
      (trainRun v).1 = retainedEpoch v + 1 + 5 ∧
      ∀ i < (trainRun v).1, v (retainedEpoch v) ≤ v i + 1 / 1000) := by
  have hinv : EsInv v 0 ⟨none, 0, 0⟩ := (esInv_none_iff v 0 0 0).mpr rfl
  have h := fitLoop_spec v 100 0 ⟨none, 0, 0⟩ hinv
  have hrun : trainRun v = fitLoop v 100 0 ⟨none, 0, 0⟩ := rfl
  constructor
  · rw [hrun]
    have h1 := h.1
    omega
  · intro ht
    rw [hrun] at ht
    have hspec := h.2.2 ht
    have hre : retainedEpoch v = (trainRun v).2.1.bestEpoch := by
      rw [retainedEpoch, if_pos]
      rw [hrun]
      exact ht
    refine ⟨hre, ?_, ?_⟩
    · rw [hre, hrun]
      have h2 := hspec.2.1
      have hp : es_patience = 5 := rfl
      rw [hp] at h2
      exact h2
    · intro i hi
      rw [hre, hrun]
      have hd : es_min_delta = 1 / 1000 := rfl
      have h3 := hspec.2.2 i (by rw [hrun] at hi; exact hi)
      rw [hd] at h3
      exact h3

/-- C1 counterexample: on the validation-loss trace `exValLoss` (loss 1 at
epoch 0, then 999/1000 forever) early stopping fires at epoch 5 and
`restore_best_weights` rolls back to epoch 0, whose validation loss 1 is
strictly worse than the loss 999/1000 observed at epoch 1 — refuting the
claim that the retained Model Parameters are never worse (in validation loss)
than the best observed. -/
theorem claim_c1_counterexample :
    (trainRun exValLoss).2.2 = true ∧
    retainedEpoch exValLoss = 0 ∧
    1 < (trainRun exValLoss).1 ∧
    exValLoss 1 < exValLoss (retainedEpoch exValLoss) := by
  have hrun : trainRun exValLoss = (6, ⟨some 1, 0, 5⟩, true) := by
    norm_num [trainRun, fitLoop, earlyStopUpdate, exValLoss, es_min_delta, es_patience]
  have hre : retainedEpoch exValLoss = 0 := by
    rw [retainedEpoch, if_pos (by rw [hrun])]
    rw [hrun]
  refine ⟨by rw [hrun], hre, by rw [hrun]; norm_num, ?_⟩
  rw [hre]
  norm_num [exValLoss]


theorem inferenceCell_ok (w : ModelWeights) (ps : List ℕ) :
    inferenceCell w (Except.ok ps) =
      if ps.length = 28 * 28 then
        match normalizeByMax ps with
        | some imgarr =>
          Except.ok ((model_predict w [imgarr]).head?,
            np_argmax ((model_call w [imgarr]).flatten))
        | none => Except.ok (none, 0)
      else Except.error NotebookError.shapeMismatch :=
  rfl

theorem inferenceCell_ok_some (w : ModelWeights) (ps : List ℕ) (narr : List ℚ)
    (hlen : ps.length = 28 * 28) (hnorm : normalizeByMax ps = some narr) :
    inferenceCell w (Except.ok ps) =
      Except.ok ((model_predict w [narr]).head?,
        np_argmax ((model_call w [narr]).flatten)) := by
  rw [inferenceCell_ok, if_pos hlen, hnorm]

theorem inferenceCell_ok_none (w : ModelWeights) (ps : List ℕ)
    (hlen : ps.length = 28 * 28) (hnorm : normalizeByMax ps = none) :
    inferenceCell w (Except.ok ps) = Except.ok (none, 0) := by
  rw [inferenceCell_ok, if_pos hlen, hnorm]

theorem model_predict_single (w : ModelWeights) (x : List ℚ) :
    model_predict w [x] = [forward w x] := by
  rw [model_predict, batchList_cons, List.drop_nil, batchList_nil,
    List.take_of_length_le (by simp)]
  rfl

theorem model_call_single (w : ModelWeights) (x : List ℚ) :
    model_call w [x] = [forward w x] :=
  rfl

/-- C2: given an external grayscale image of the right pixel count whose
maximum intensity is nonzero, the inference cell normalizes every pixel by the
image's own maximum (a policy differing from the training normalization by
the constant 255, witnessed by a concrete image of maximum 128), runs the
forward pass, and reports the argmax index of the 10 logits as the predicted
digit. -/
theorem claim_c2_inference (w : ModelWeights) (ps : List ℕ)
    (hlen : ps.length = 28 * 28) (hmax : npMax ps ≠ 0) :
    inferenceCell w (Except.ok ps) =
      Except.ok (some (forward w (ps.map fun p : ℕ => (p : ℚ) / (npMax ps : ℚ))),
        np_argmax (forward w (ps.map fun p : ℕ => (p : ℚ) / (npMax ps : ℚ)))) ∧
    (forward w (ps.map fun p : ℕ => (p : ℚ) / (npMax ps : ℚ))).length = 10 ∧
    np_argmax (forward w (ps.map fun p : ℕ => (p : ℚ) / (npMax ps : ℚ))) < 10 ∧
    normalizeByMax (128 :: List.replicate 783 0) ≠
      some ((128 :: List.replicate 783 0).map fun p : ℕ => (p : ℚ) / 255) := by
  have hnorm : normalizeByMax ps =
      some (ps.map fun p : ℕ => (p : ℚ) / (npMax ps : ℚ)) := by
    rw [normalizeByMax, if_neg hmax]
  have hlen10 : (forward w (ps.map fun p : ℕ => (p : ℚ) / (npMax ps : ℚ))).length = 10 := by
    simp [forward, denseLayer]
  refine ⟨?_, hlen10, ?_, ?_⟩
  · rw [inferenceCell_ok_some w ps _ hlen hnorm, model_predict_single, model_call_single]
    simp
  · exact lt_of_lt_of_le (np_argmax_lt_of_ne_nil _ (by
      intro hc
      rw [hc] at hlen10
      simp at hlen10)) (le_of_eq hlen10)
  · intro hc
    have hm : npMax (128 :: List.replicate 783 0) = 128 := by
      rw [npMax_cons]
      have hz : npMax (List.replicate 783 0) = 0 := by
        have h783 : (783 : ℕ) = 782 + 1 := rfl
        rw [h783, npMax_replicate_succ]
      rw [hz]
      simp
    rw [normalizeByMax, if_neg (by rw [hm]; norm_num), hm] at hc
    have hc2 := Option.some.inj hc
    have hc3 : ((128 : ℕ) : ℚ) / 128 = ((128 : ℕ) : ℚ) / 255 := by
      rw [List.map_cons, List.map_cons] at hc2
      exact congrArg List.headI hc2
    norm_num at hc3

/-- C2 witness: the inference contract at the all-ones image and the all-zero
parameter assignment. -/
theorem claim_c2_witness :
    inferenceCell zeroWeights (Except.ok onesImage) =
      Except.ok (some (forward zeroWeights
          (onesImage.map fun p : ℕ => (p : ℚ) / (npMax onesImage : ℚ))),
        np_argmax (forward zeroWeights
          (onesImage.map fun p : ℕ => (p : ℚ) / (npMax onesImage : ℚ)))) :=
  (claim_c2_inference zeroWeights onesImage (by rw [onesImage, List.length_replicate])
    (by rw [onesImage, show (28 * 28 : ℕ) = 783 + 1 from rfl, npMax_replicate_succ]; norm_num)).1

/-- C3 (code bug): on the synthetic all-zero 28x28 image the spec demands a
finite length-10 logit vector, but the inference cell divides by
`np.max(imgarr) = 0`; `0 / 0` is NaN under float semantics, so the normalized
array and hence the printed logits hold no finite values (embedded as `none`),
and the reported digit is numpy's argmax over an all-NaN vector, 0. -/
theorem claim_c3_zero_image (w : ModelWeights) :
    npMax zeroImage = 0 ∧
    normalizeByMax zeroImage = none ∧
    inferenceCell w (Except.ok zeroImage) = Except.ok (none, 0) := by
  have hmax : npMax zeroImage = 0 := by
    rw [zeroImage, show (28 * 28 : ℕ) = 783 + 1 from rfl, npMax_replicate_succ]
  have hnorm : normalizeByMax zeroImage = none := by
    rw [normalizeByMax, if_pos hmax]
  exact ⟨hmax, hnorm, inferenceCell_ok_none w zeroImage
    (by rw [zeroImage, List.length_replicate]) hnorm⟩

/-- C4: the training/test normalization divides every 8-bit pixel intensity by
the constant 255 (leaving the label untouched), and on any sample whose
pixels are in [0, 255] every normalized pixel value lies in [0, 1]. -/
theorem claim_c4_normalization (s : RawSample) (hpix : ∀ p ∈ s.1, p ≤ 255) :
    (normalize_img s).1 = s.1.map (fun p : ℕ => (p : ℚ) / 255) ∧
    (normalize_img s).2 = s.2 ∧
    ∀ q ∈ (normalize_img s).1, 0 ≤ q ∧ q ≤ 1 := by
  refine ⟨rfl, rfl, ?_⟩
  intro q hq
  rw [normalize_img] at hq
  simp only [List.mem_map] at hq
  obtain ⟨p, hp, rfl⟩ := hq
  constructor
  · positivity
  · rw [div_le_one (by norm_num)]
    exact_mod_cast hpix p hp

/-- C4 witness: the bounds at the concrete sample `([0, 128, 255], 7)`,
instantiated at its middle pixel. -/
theorem claim_c4_witness :
    0 ≤ ((128 : ℕ) : ℚ) / 255 ∧ ((128 : ℕ) : ℚ) / 255 ≤ 1 :=
  (claim_c4_normalization (([0, 128, 255], 7) : RawSample) (by decide)).2.2
    (((128 : ℕ) : ℚ) / 255)
    (by rw [normalize_img]; exact List.mem_map_of_mem _ (by simp))

/-- C5: the train pipeline applies, in source order, normalize, cache,
shuffle with buffer equal to the full train split count, batch into groups of
128, prefetch; the test pipeline is the same sequence with the shuffle step
omitted, so concatenating its batches yields the normalized split in its
original, fixed order, while the train pipeline yields a permutation of the
normalized split. -/
theorem claim_c5_pipeline_order (raw : List RawSample) (ks : List ℕ) :
    trainPipeOps raw.length =
      [PipeOp.map_normalize, PipeOp.cache, PipeOp.shuffle raw.length,
       PipeOp.batch 128, PipeOp.prefetch] ∧
    (trainPipeOps raw.length).eraseIdx 2 = testPipeOps ∧
    (∀ b : ℕ, PipeOp.shuffle b ∉ testPipeOps) ∧
    (ds_test_pipeline raw).flatten = raw.map normalize_img ∧
    List.Perm ((ds_train_pipeline raw ks).flatten) (raw.map normalize_img) := by
  refine ⟨rfl, rfl, ?_, ?_, ?_⟩
  · intro b hb
    simp [testPipeOps] at hb
  · show (batchList 128 (raw.map normalize_img)).flatten = raw.map normalize_img
    exact batchList_flatten 128 (by norm_num) _
  · show List.Perm
      ((batchList 128 (shuffleDs raw.length ks (raw.map normalize_img))).flatten)
      (raw.map normalize_img)
    rw [batchList_flatten 128 (by norm_num)]
    exact shuffleDs_perm _ _ _

/-- C6: batching a split into groups of 128 is exhaustive and
partition-preserving — concatenating the batches in order reproduces the
split with each sample exactly once — and every batch holds exactly 128
samples except possibly the final one, which is nonempty and no larger. -/
theorem claim_c6_batching (xs : List Sample) :
    (batchList 128 xs).flatten = xs ∧
    (∀ b ∈ (batchList 128 xs).dropLast, b.length = 128) ∧
    (∀ b ∈ batchList 128 xs, 0 < b.length ∧ b.length ≤ 128) :=
  ⟨batchList_flatten 128 (by norm_num) xs,
   batchList_dropLast_length 128 (by norm_num) xs,
   batchList_mem_length 128 (by norm_num) xs⟩

/-- C6 witness: the conjunction at a concrete three-sample split. -/
theorem claim_c6_witness :
    (batchList 128 [(([1], 0) : Sample), ([2], 1), ([3], 2)]).flatten =
      [(([1], 0) : Sample), ([2], 1), ([3], 2)] :=
  (claim_c6_batching [(([1], 0) : Sample), ([2], 1), ([3], 2)]).1

/-- C7: the model is the fixed layer sequence Conv2D (4x4 kernel, 3 filters,
same padding, ReLU, 28x28x1 input), Flatten, Dense 64 ReLU, Dense 10 with no
activation, and on every input the forward pass emits exactly 10 raw logits
(the convolution stage emitting the 28*28*3 values the flatten stage
linearizes). -/
theorem claim_c7_model_topology (w : ModelWeights) (ps : List ℚ) :
    modelLayers = [LayerCfg.conv2d 4 3 "relu" "same" 28 28 1,
      LayerCfg.flattenStage 28 28 1,
      LayerCfg.denseStage 64 (some "relu"),
      LayerCfg.denseStage 10 none] ∧
    (convSame w.convKernel w.convBias ps).length = 28 * 28 * 3 ∧
    (forward w ps).length = 10 := by
  refine ⟨rfl, ?_, ?_⟩
  · rw [convSame, List.length_map, List.length_range]
  · simp [forward, denseLayer]

/-- C8: compilation binds the Adam optimizer at learning rate 0.001, the
sparse categorical cross-entropy loss computed directly from logits
(`from_logits=True`), and the sparse categorical accuracy metric, which
counts a prediction as correct exactly when the argmax of the logits equals
the integer label. -/
theorem claim_c8_compilation :
    modelCompile.optimizer.name = "Adam" ∧
    modelCompile.optimizer.learning_rate = 1 / 1000 ∧
    modelCompile.loss.name = "SparseCategoricalCrossentropy" ∧
    modelCompile.loss.from_logits = true ∧
    modelCompile.metrics = ["SparseCategoricalAccuracy"] ∧
    ∀ (logits : List ℚ) (label : ℕ),
      sparseCategoricalAccuracy logits label = true ↔ np_argmax logits = label := by
  refine ⟨rfl, rfl, rfl, rfl, rfl, ?_⟩
  intro logits label
  rw [sparseCategoricalAccuracy]
  exact beq_iff_eq

/-- C9: nothing in the notebook catches or recovers from an error — a failed
dataset fetch propagates out of the pipeline cells, a failed image load
propagates out of the inference cell, and an external image whose pixel count
differs from 28*28 makes the reshape fail, aborting the inference cell with a
shape mismatch; in each case the cell's result is the error itself, with no
retry and no fallback value. -/
theorem claim_c9_error_propagation :
    (∀ ks : List ℕ, notebookPipelines (Except.error NotebookError.datasetUnavailable) ks =
      Except.error NotebookError.datasetUnavailable) ∧
    (∀ w : ModelWeights, inferenceCell w (Except.error NotebookError.imageLoadError) =
      Except.error NotebookError.imageLoadError) ∧
    (∀ (w : ModelWeights) (ps : List ℕ), ps.length ≠ 28 * 28 →
      inferenceCell w (Except.ok ps) = Except.error NotebookError.shapeMismatch) := by
  refine ⟨fun ks => rfl, fun w => rfl, fun w ps h => ?_⟩
  rw [inferenceCell_ok, if_neg h]

/-- C10: the forward pass is one deterministic function — `model.predict`
(which runs the layers over sub-batches of 32 and concatenates) and calling
`model` directly on the same batch produce identical logit rows, so the
printed logits and the reported argmax digit come from a single forward-pass
function. -/
theorem claim_c10_deterministic_forward (w : ModelWeights) (batch : List (List ℚ)) :
    model_predict w batch = model_call w batch ∧
    ∀ img : List ℚ,
      np_argmax ((model_predict w [img]).flatten) =
        np_argmax ((model_call w [img]).flatten) := by
  have key : ∀ b : List (List ℚ), model_predict w b = model_call w b := by
    intro b
    rw [model_predict, model_call, List.flatMap_def, ← List.map_flatten,
      batchList_flatten 32 (by norm_num)]
  exact ⟨key batch, fun img => by rw [key [img]]⟩
